import Mathlib

/-!
Shallow embedding of the trading core of the polybot repository
(src/server/trading/{kelly-criterion,risk-manager,spike-detector,arbitrage-scanner}.ts)
and proofs about it.  JavaScript numbers are modelled by `ℚ`; the one
place where the source can produce a non-finite value (a division whose
divisor may be zero, in the spike detector) is modelled by an explicit
`JsNum` type with JavaScript division semantics.  `Math.round` is
modelled by `jsRound` (round half toward plus infinity), `Math.min` by
`min` on `ℚ` (all arguments there are finite).
-/

/-- JavaScript `Math.round`: round half toward plus infinity. -/
def jsRound (q : ℚ) : ℤ := ⌊q + 1/2⌋

namespace Kelly

/-- Input of `KellyCriterion.calculateKelly` (shared/schema `KellyInput`). -/
structure KellyInput where
  currentPrice : ℚ
  estimatedProbability : ℚ
  bankroll : ℚ
  kellyFraction : ℚ
  maxPositionPercent : ℚ
deriving Repr, DecidableEq

/-- Recommendation labels of `KellyResult`. -/
inductive Rec where
  | strong_buy
  | buy
  | hold
  | avoid
deriving Repr, DecidableEq

/-- Result of `KellyCriterion.calculateKelly` (shared/schema `KellyResult`). -/
structure KellyResult where
  fraction : ℚ
  positionSize : ℚ
  edge : ℚ
  confidence : ℚ
  recommendation : Rec
deriving Repr, DecidableEq

/-- Embedding of `KellyCriterion.calculateKelly`
(src/server/trading/kelly-criterion.ts lines 20-59). -/
def calculateKelly (input : KellyInput) : KellyResult :=
  let edge := input.estimatedProbability - input.currentPrice
  if edge ≤ 0 then
    { fraction := 0, positionSize := 0, edge := edge, confidence := 0,
      recommendation := Rec.avoid }
  else
    let rawKelly := edge / input.currentPrice
    let adjustedKelly := rawKelly * input.kellyFraction
    let cappedKelly := min adjustedKelly input.maxPositionPercent
    let positionSize := input.bankroll * cappedKelly
    let confidence := min (edge / (15/100)) 1
    let recommendation :=
      if cappedKelly ≥ 4/100 then Rec.strong_buy
      else if cappedKelly ≥ 2/100 then Rec.buy
      else if cappedKelly > 0 then Rec.hold
      else Rec.avoid
    { fraction := cappedKelly,
      positionSize := (jsRound (positionSize * 100) : ℚ) / 100,
      edge := edge, confidence := confidence,
      recommendation := recommendation }

/-- The capped Kelly fraction `min((edge/currentPrice)·kellyFraction, maxPositionPercent)`
(local `cappedKelly` of the source). -/
def cappedKelly (input : KellyInput) : ℚ :=
  min ((input.estimatedProbability - input.currentPrice) / input.currentPrice
    * input.kellyFraction) input.maxPositionPercent

/-- The spec example input for `calculateKelly`. -/
def exampleInput : KellyInput :=
  { currentPrice := 2/5, estimatedProbability := 3/5, bankroll := 10000,
    kellyFraction := 1/2, maxPositionPercent := 1/20 }

/-- On positive edge, `calculateKelly` produces the fields of the else branch. -/
theorem calculateKelly_posEdge (input : KellyInput)
    (h : ¬ input.estimatedProbability - input.currentPrice ≤ 0) :
    calculateKelly input =
      { fraction := cappedKelly input,
        positionSize := (jsRound (input.bankroll * cappedKelly input * 100) : ℚ) / 100,
        edge := input.estimatedProbability - input.currentPrice,
        confidence := min ((input.estimatedProbability - input.currentPrice) / (15/100)) 1,
        recommendation :=
          if 4/100 ≤ cappedKelly input then Rec.strong_buy
          else if 2/100 ≤ cappedKelly input then Rec.buy
          else if 0 < cappedKelly input then Rec.hold
          else Rec.avoid } := by
  simp only [calculateKelly, cappedKelly]
  rw [if_neg h]

end Kelly

/-- C1: `calculateKelly` returns the all-zero "avoid" result on non-positive
edge; on positive edge (with `currentPrice` in `(0,1)`) it returns
`fraction = min((edge/currentPrice)·kellyFraction, maxPositionPercent)`,
`positionSize = bankroll·fraction` rounded to cent precision,
`confidence = min(edge/0.15, 1)`, and recommendation `strong_buy` for
`fraction ≥ 0.04`, `buy` for `0.02 ≤ fraction < 0.04`, `hold` for
`0 < fraction < 0.02`; on the spec example it yields position size 500.00
and `strong_buy`. -/
theorem C1_calculateKelly_spec (input : Kelly.KellyInput) :
    (input.estimatedProbability - input.currentPrice ≤ 0 →
      Kelly.calculateKelly input =
        { fraction := 0, positionSize := 0,
          edge := input.estimatedProbability - input.currentPrice,
          confidence := 0, recommendation := Kelly.Rec.avoid }) ∧
    (0 < input.estimatedProbability - input.currentPrice →
     0 < input.currentPrice → input.currentPrice < 1 →
      (Kelly.calculateKelly input).fraction = Kelly.cappedKelly input ∧
      (Kelly.calculateKelly input).positionSize =
        (jsRound (input.bankroll * Kelly.cappedKelly input * 100) : ℚ) / 100 ∧
      (Kelly.calculateKelly input).confidence =
        min ((input.estimatedProbability - input.currentPrice) / (15/100)) 1 ∧
      (4/100 ≤ Kelly.cappedKelly input →
        (Kelly.calculateKelly input).recommendation = Kelly.Rec.strong_buy) ∧
      (2/100 ≤ Kelly.cappedKelly input → Kelly.cappedKelly input < 4/100 →
        (Kelly.calculateKelly input).recommendation = Kelly.Rec.buy) ∧
      (0 < Kelly.cappedKelly input → Kelly.cappedKelly input < 2/100 →
        (Kelly.calculateKelly input).recommendation = Kelly.Rec.hold)) ∧
    ((Kelly.calculateKelly Kelly.exampleInput).positionSize = 500 ∧
     (Kelly.calculateKelly Kelly.exampleInput).recommendation = Kelly.Rec.strong_buy) := by
  refine ⟨?_, ?_, by constructor <;>
    norm_num [Kelly.calculateKelly, Kelly.exampleInput, jsRound]⟩
  · intro h
    simp only [Kelly.calculateKelly]
    rw [if_pos h]
  · intro hpos hp0 hp1
    have hne : ¬ input.estimatedProbability - input.currentPrice ≤ 0 := not_le.mpr hpos
    rw [Kelly.calculateKelly_posEdge input hne]
    refine ⟨rfl, rfl, rfl, ?_, ?_, ?_⟩
    · intro h4
      simp only [if_pos h4]
    · intro h2 h4
      simp only [if_neg (not_le.mpr h4), if_pos h2]
    · intro h0 h2
      have h4 : ¬ (4/100 : ℚ) ≤ Kelly.cappedKelly input :=
        not_le.mpr (h2.trans (by norm_num))
      simp only [if_neg h4, if_neg (not_le.mpr h2), if_pos h0]

/-- Witness for C1 at the spec's concrete example input. -/
theorem C1_witness :
    (Kelly.calculateKelly Kelly.exampleInput).fraction = 1/20 ∧
    (Kelly.calculateKelly Kelly.exampleInput).positionSize = 500 ∧
    (Kelly.calculateKelly Kelly.exampleInput).recommendation = Kelly.Rec.strong_buy := by
  have h := C1_calculateKelly_spec Kelly.exampleInput
  have h2 := h.2.1 (by norm_num [Kelly.exampleInput]) (by norm_num [Kelly.exampleInput])
    (by norm_num [Kelly.exampleInput])
  refine ⟨?_, h.2.2.1, h.2.2.2⟩
  rw [h2.1]
  norm_num [Kelly.cappedKelly, Kelly.exampleInput]

namespace RiskM

/-- Configuration record `RiskLimits` (shared/schema). -/
structure RiskLimits where
  maxTotalExposure : ℚ
  maxPositionSize : ℚ
  maxDailyLoss : ℚ
  maxCorrelation : ℚ
  stopLossDefault : ℚ
  takeProfitDefault : ℚ
deriving Repr, DecidableEq

/-- Default limits of `RiskManager` (src/server/trading/risk-manager.ts lines 4-11). -/
def defaultLimits : RiskLimits :=
  { maxTotalExposure := 1/4, maxPositionSize := 1/20, maxDailyLoss := 1/10,
    maxCorrelation := 7/10, stopLossDefault := 3/20, takeProfitDefault := 1/5 }

/-- A realized trade; `recordTrade` reads only its `profitLoss` field. -/
structure Trade where
  profitLoss : ℚ
deriving Repr, DecidableEq

/-- An open position; the fields of shared/schema `Position` read by
`calculateMetrics` / `validatePosition` (market id/question, side and the
optional stop/take levels are not needed by the claims verified here). -/
structure Position where
  entryPrice : ℚ
  currentPrice : ℚ
  quantity : ℚ
deriving Repr, DecidableEq

/-- Mutable state of the `RiskManager` class (lines 4-16). -/
structure RMState where
  limits : RiskLimits
  dailyPnL : ℚ
  peakEquity : ℚ
  currentEquity : ℚ
  tradingHalted : Bool
deriving Repr, DecidableEq

/-- Field initializers of `RiskManager`. -/
def initialState : RMState :=
  { limits := defaultLimits, dailyPnL := 0, peakEquity := 0, currentEquity := 0,
    tradingHalted := false }

/-- Embedding of `RiskManager.updateEquity` (lines 26-31). -/
def updateEquity (s : RMState) (equity : ℚ) : RMState :=
  { s with currentEquity := equity,
           peakEquity := if equity > s.peakEquity then equity else s.peakEquity }

/-- Embedding of `RiskManager.recordTrade` (lines 33-39): accumulate the daily
P&L, then trip the halt flag when equity is positive and the absolute daily
P&L reaches `maxDailyLoss` of it.  The flag is never cleared here. -/
def recordTrade (s : RMState) (t : Trade) : RMState :=
  let pnl := s.dailyPnL + t.profitLoss
  if 0 < s.currentEquity ∧ s.limits.maxDailyLoss ≤ |pnl| / s.currentEquity then
    { s with dailyPnL := pnl, tradingHalted := true }
  else
    { s with dailyPnL := pnl }

/-- Embedding of `RiskManager.resetDailyPnL` (lines 41-44). -/
def resetDailyPnL (s : RMState) : RMState :=
  { s with dailyPnL := 0, tradingHalted := false }

/-- Embedding of `RiskManager.isTradingAllowed` (lines 46-48). -/
def isTradingAllowed (s : RMState) : Bool :=
  !s.tradingHalted

/-- Embedding of `RiskManager.setLimits` (lines 18-20); the partial-record
merge is modelled as a full replacement record. -/
def setLimits (s : RMState) (l : RiskLimits) : RMState :=
  { s with limits := l }

/-- The state-mutating operations of the risk manager. -/
inductive RMOp where
  | record (t : Trade)
  | update (e : ℚ)
  | config (l : RiskLimits)
  | reset
deriving Repr, DecidableEq

/-- Whether an operation is the daily reset. -/
def RMOp.isReset : RMOp → Bool
  | RMOp.reset => true
  | _ => false

/-- Apply one operation to the risk manager state. -/
def applyOp (s : RMState) : RMOp → RMState
  | RMOp.record t => recordTrade s t
  | RMOp.update e => updateEquity s e
  | RMOp.config l => setLimits s l
  | RMOp.reset => resetDailyPnL s

/-- Every operation other than the reset preserves a raised halt flag. -/
theorem applyOp_preserves_halted (s : RMState) (op : RMOp)
    (hh : s.tradingHalted = true) (hnr : op.isReset = false) :
    (applyOp s op).tradingHalted = true := by
  cases op with
  | record t =>
    simp only [applyOp, recordTrade]
    split <;> simp [hh]
  | update e => simpa [applyOp, updateEquity] using hh
  | config l => simpa [applyOp, setLimits] using hh
  | reset => simp [RMOp.isReset] at hnr

/-- A reset-free operation sequence preserves a raised halt flag. -/
theorem foldl_preserves_halted (ops : List RMOp) :
    ∀ s : RMState, s.tradingHalted = true →
    (∀ op ∈ ops, op.isReset = false) →
    (ops.foldl applyOp s).tradingHalted = true := by
  induction ops with
  | nil => intro s hh _; simpa using hh
  | cons op rest ih =>
    intro s hh hnr
    simp only [List.foldl_cons]
    exact ih (applyOp s op) (applyOp_preserves_halted s op hh (hnr op (by simp)))
      (fun o ho => hnr o (by simp [ho]))

end RiskM

/-- C2: once a `recordTrade` call pushes `|dailyPnL| / currentEquity` to at
least `maxDailyLoss` (with positive equity), `isTradingAllowed` returns false
after every subsequent reset-free operation sequence — profitable trades
included — and `resetDailyPnL` (the only transition out of Halted) zeroes the
daily P&L and restores the Allowed state. -/
theorem C2_circuit_breaker (s : RiskM.RMState) (t : RiskM.Trade)
    (hpos : 0 < s.currentEquity)
    (htrip : s.limits.maxDailyLoss ≤ |s.dailyPnL + t.profitLoss| / s.currentEquity)
    (ops : List RiskM.RMOp) (hnr : ∀ op ∈ ops, op.isReset = false) :
    RiskM.isTradingAllowed (ops.foldl RiskM.applyOp (RiskM.recordTrade s t)) = false ∧
    (∀ s2 : RiskM.RMState, (RiskM.resetDailyPnL s2).dailyPnL = 0 ∧
      RiskM.isTradingAllowed (RiskM.resetDailyPnL s2) = true) := by
  constructor
  · have hhalt : (RiskM.recordTrade s t).tradingHalted = true := by
      simp only [RiskM.recordTrade]
      rw [if_pos ⟨hpos, htrip⟩]
    have := RiskM.foldl_preserves_halted ops (RiskM.recordTrade s t) hhalt hnr
    simp [RiskM.isTradingAllowed, this]
  · intro s2
    exact ⟨rfl, rfl⟩

/-- Witness for C2: equity 100, a losing trade of −10 trips the 10% daily-loss
breaker, and a subsequent winning trade plus an equity update do not lift it. -/
theorem C2_witness :
    RiskM.isTradingAllowed
      ([RiskM.RMOp.record { profitLoss := 50 }, RiskM.RMOp.update 1000].foldl
        RiskM.applyOp
        (RiskM.recordTrade (RiskM.updateEquity RiskM.initialState 100)
          { profitLoss := -10 })) = false := by
  have h := C2_circuit_breaker (RiskM.updateEquity RiskM.initialState 100)
    { profitLoss := -10 }
    (by norm_num [RiskM.updateEquity, RiskM.initialState])
    (by norm_num [RiskM.updateEquity, RiskM.initialState, RiskM.defaultLimits])
    [RiskM.RMOp.record { profitLoss := 50 }, RiskM.RMOp.update 1000]
    (by simp [RiskM.RMOp.isReset])
  exact h.1

/-- C10 (implicit): starting from the initial state, as long as `updateEquity`
is never called with a positive value, no operation sequence — in particular
no sequence of `recordTrade` calls, however large the accumulated losses — can
raise the halt flag, because the daily-loss check is guarded by
`currentEquity > 0`; `isTradingAllowed` keeps returning true. -/
theorem C10_no_halt_without_positive_equity (ops : List RiskM.RMOp)
    (hup : ∀ e : ℚ, RiskM.RMOp.update e ∈ ops → e ≤ 0) :
    RiskM.isTradingAllowed (ops.foldl RiskM.applyOp RiskM.initialState) = true := by
  suffices h : ∀ s : RiskM.RMState, s.currentEquity ≤ 0 → s.tradingHalted = false →
      (∀ e : ℚ, RiskM.RMOp.update e ∈ ops → e ≤ 0) →
      (ops.foldl RiskM.applyOp s).currentEquity ≤ 0 ∧
      (ops.foldl RiskM.applyOp s).tradingHalted = false by
    have := h RiskM.initialState (by norm_num [RiskM.initialState])
      (by norm_num [RiskM.initialState]) hup
    simp [RiskM.isTradingAllowed, this.2]
  clear hup
  induction ops with
  | nil => intro s he hh _; exact ⟨he, hh⟩
  | cons op rest ih =>
    intro s he hh hup
    simp only [List.foldl_cons]
    refine ih (RiskM.applyOp s op) ?_ ?_ (fun e hmem => hup e (by simp [hmem]))
    · cases op with
      | record t =>
        simp only [RiskM.applyOp, RiskM.recordTrade]
        split <;> simpa using he
      | update e => simpa [RiskM.applyOp, RiskM.updateEquity] using hup e (by simp)
      | config l => simpa [RiskM.applyOp, RiskM.setLimits] using he
      | reset => simpa [RiskM.applyOp, RiskM.resetDailyPnL] using he
    · cases op with
      | record t =>
        simp only [RiskM.applyOp, RiskM.recordTrade]
        split
        · rename_i hcond
          exact absurd hcond.1 (not_lt.mpr he)
        · simpa using hh
      | update e => simpa [RiskM.applyOp, RiskM.updateEquity] using hh
      | config l => simpa [RiskM.applyOp, RiskM.setLimits] using hh
      | reset => simp [RiskM.applyOp, RiskM.resetDailyPnL]

/-- Witness for C10: two heavy losses and a non-positive equity update leave
trading allowed. -/
theorem C10_witness :
    RiskM.isTradingAllowed
      ([RiskM.RMOp.record { profitLoss := -1000000 },
        RiskM.RMOp.update 0,
        RiskM.RMOp.record { profitLoss := -1000000 }].foldl
        RiskM.applyOp RiskM.initialState) = true := by
  have h := C10_no_halt_without_positive_equity
    [RiskM.RMOp.record { profitLoss := -1000000 },
     RiskM.RMOp.update 0,
     RiskM.RMOp.record { profitLoss := -1000000 }]
    (by intro e hmem
        simp only [List.mem_cons, List.mem_singleton] at hmem
        rcases hmem with h1 | h1 | h1 | h1 <;> simp_all)
  exact h

namespace RiskM

/-- Result record of `RiskManager.validatePosition`. -/
structure ValidationResult where
  allowed : Bool
  reason : Option String
  adjustedSize : Option ℚ
deriving Repr, DecidableEq

/-- Total exposure of a position list, `Σ entryPrice × quantity` (the
`reduce` of lines 51 and 154). -/
def totalExposure (positions : List Position) : ℚ :=
  (positions.map (fun p => p.entryPrice * p.quantity)).sum

/-- Embedding of `RiskManager.validatePosition`
(src/server/trading/risk-manager.ts lines 145-180). -/
def validatePosition (s : RMState) (positionSize bankroll : ℚ)
    (existingPositions : List Position) : ValidationResult :=
  if s.tradingHalted then
    { allowed := false, reason := some "Trading halted due to daily loss limit",
      adjustedSize := none }
  else
    let currentExposure := totalExposure existingPositions
    let newExposure := currentExposure + positionSize
    let exposurePercent := newExposure / bankroll
    if exposurePercent > s.limits.maxTotalExposure then
      let maxAllowed := s.limits.maxTotalExposure * bankroll - currentExposure
      if maxAllowed ≤ 0 then
        { allowed := false, reason := some "Maximum exposure limit reached",
          adjustedSize := none }
      else
        { allowed := true,
          reason := some "Position size reduced to stay within exposure limits",
          adjustedSize := some maxAllowed }
    else
      let positionPercent := positionSize / bankroll
      if positionPercent > s.limits.maxPositionSize then
        { allowed := true, reason := some "Position size reduced to maximum allowed",
          adjustedSize := some (bankroll * s.limits.maxPositionSize) }
      else
        { allowed := true, reason := none, adjustedSize := none }

/-- The spec example: one existing position of exposure 2000. -/
def examplePositions : List Position :=
  [{ entryPrice := 1/2, currentPrice := 1/2, quantity := 4000 }]

end RiskM

/-- C4: `validatePosition` rejects when trading is halted; otherwise, writing
`E` for the existing exposure and `L = maxTotalExposure × bankroll`, when
`(E + positionSize)/bankroll` strictly exceeds `maxTotalExposure` it rejects
if `L − E ≤ 0` and otherwise allows with `adjustedSize = L − E` (exactly
reaching the limit), the total-exposure adjustment being returned regardless
of the single-position cap (the exposure check runs first, one adjustment per
call); on the spec example (limits 25%, bankroll 10000, exposure 2000,
request 1000) it allows with adjusted size 500. -/
theorem C4_validatePosition_spec (s : RiskM.RMState) (positionSize bankroll : ℚ)
    (positions : List RiskM.Position) :
    (s.tradingHalted = true →
      (RiskM.validatePosition s positionSize bankroll positions).allowed = false) ∧
    (s.tradingHalted = false →
     (RiskM.totalExposure positions + positionSize) / bankroll > s.limits.maxTotalExposure →
      (s.limits.maxTotalExposure * bankroll - RiskM.totalExposure positions ≤ 0 →
        (RiskM.validatePosition s positionSize bankroll positions).allowed = false ∧
        (RiskM.validatePosition s positionSize bankroll positions).adjustedSize = none) ∧
      (0 < s.limits.maxTotalExposure * bankroll - RiskM.totalExposure positions →
        (RiskM.validatePosition s positionSize bankroll positions).allowed = true ∧
        (RiskM.validatePosition s positionSize bankroll positions).adjustedSize =
          some (s.limits.maxTotalExposure * bankroll - RiskM.totalExposure positions))) ∧
    ((RiskM.validatePosition RiskM.initialState 1000 10000
        RiskM.examplePositions).allowed = true ∧
     (RiskM.validatePosition RiskM.initialState 1000 10000
        RiskM.examplePositions).adjustedSize = some 500) := by
  refine ⟨?_, ?_, ?_⟩
  · intro hh
    simp only [RiskM.validatePosition]
    rw [if_pos hh]
  · intro hh hexc
    have hne : ¬ s.tradingHalted = true := by simp [hh]
    refine ⟨?_, ?_⟩
    · intro hno
      simp only [RiskM.validatePosition]
      rw [if_neg hne, if_pos hexc, if_pos hno]
      exact ⟨rfl, rfl⟩
    · intro hroom
      simp only [RiskM.validatePosition]
      rw [if_neg hne, if_pos hexc, if_neg (not_le.mpr hroom)]
      exact ⟨rfl, rfl⟩
  · constructor <;>
      norm_num [RiskM.validatePosition, RiskM.initialState, RiskM.defaultLimits,
        RiskM.examplePositions, RiskM.totalExposure]

/-- Witness for C4 at the spec's concrete example (halted-free state, 25%
limit, bankroll 10000, existing exposure 2000, requested 1000). -/
theorem C4_witness :
    (RiskM.validatePosition RiskM.initialState 1000 10000
      RiskM.examplePositions).allowed = true ∧
    (RiskM.validatePosition RiskM.initialState 1000 10000
      RiskM.examplePositions).adjustedSize = some 500 := by
  have h := C4_validatePosition_spec RiskM.initialState 1000 10000 RiskM.examplePositions
  have h2 := (h.2.1 (by norm_num [RiskM.initialState])
    (by norm_num [RiskM.totalExposure, RiskM.examplePositions, RiskM.initialState,
      RiskM.defaultLimits])).2
    (by norm_num [RiskM.totalExposure, RiskM.examplePositions, RiskM.initialState,
      RiskM.defaultLimits])
  refine ⟨h2.1, ?_⟩
  rw [h2.2]
  norm_num [RiskM.totalExposure, RiskM.examplePositions, RiskM.initialState,
    RiskM.defaultLimits]

namespace RiskM

/-- Per-position unrealized returns `(currentPrice − entryPrice)/entryPrice`
(risk-manager.ts line 138).  Positions are assumed to carry a nonzero entry
price (outcome prices live in the open unit interval). -/
def unrealizedReturns (positions : List Position) : List ℚ :=
  positions.map (fun p => (p.currentPrice - p.entryPrice) / p.entryPrice)

/-- Mean of a list of rationals (`reduce / length`, line 139). -/
def listMean (xs : List ℚ) : ℚ := xs.sum / xs.length

/-- The variance computed by `RiskManager.estimateStdDev` (line 140): the sum
of squared deviations divided by the number of returns — the population
variance, not the sample variance. -/
def returnsVariance (positions : List Position) : ℚ :=
  let returns := unrealizedReturns positions
  let mean := listMean returns
  (returns.map (fun r => (r - mean) ^ 2)).sum / returns.length

/-- Embedding of `RiskManager.estimateStdDev` (lines 135-143): 0.1 for an
empty position list, else `Math.sqrt(variance) || 0.1` (the fallback fires
exactly when the square root is zero). -/
noncomputable def estimateStdDev (positions : List Position) : ℝ :=
  if positions = [] then 1/10
  else if Real.sqrt (returnsVariance positions) = 0 then 1/10
  else Real.sqrt (returnsVariance positions)

/-- The `valueAtRisk` field of `RiskManager.calculateMetrics` (lines 65-66):
`totalExposure × estimateStdDev × 1.65`. -/
noncomputable def valueAtRisk (positions : List Position) : ℝ :=
  (totalExposure positions : ℝ) * estimateStdDev positions * (165/100)

/-- Sample variance of the unrealized returns, divisor `n − 1`.  This follows
the claim's words ("sample standard deviation"), for comparison with the
population variance the source computes. -/
def sampleVariance (positions : List Position) : ℚ :=
  let returns := unrealizedReturns positions
  let mean := listMean returns
  (returns.map (fun r => (r - mean) ^ 2)).sum / ((returns.length : ℚ) - 1)

/-- The standard-deviation estimator as the claim words it: sample standard
deviation with the same 0.1 defaults. -/
noncomputable def estimateStdDevSampleSpec (positions : List Position) : ℝ :=
  if positions = [] then 1/10
  else if Real.sqrt (sampleVariance positions) = 0 then 1/10
  else Real.sqrt (sampleVariance positions)

/-- Value at risk as the claim words it (sample standard deviation). -/
noncomputable def valueAtRiskSampleSpec (positions : List Position) : ℝ :=
  (totalExposure positions : ℝ) * estimateStdDevSampleSpec positions * (165/100)

/-- Two concrete positions with unrealized returns 0 and 1/5: population
variance 1/100, sample variance 1/50. -/
def examplePositions9 : List Position :=
  [{ entryPrice := 1, currentPrice := 1, quantity := 1 },
   { entryPrice := 1, currentPrice := 6/5, quantity := 1 }]

/-- The variance the source computes is nonnegative. -/
theorem returnsVariance_nonneg (positions : List Position) :
    0 ≤ returnsVariance positions := by
  unfold returnsVariance
  refine div_nonneg (List.sum_nonneg ?_) (by positivity)
  intro x hx
  simp only [List.mem_map] at hx
  obtain ⟨r, _, rfl⟩ := hx
  positivity

end RiskM

/-- C9 counterexample: on two positions with unrealized returns 0 and 1/5 the
source's `valueAtRisk` is `2 × 0.1 × 1.65 = 0.33` (population standard
deviation), while the claimed sample-standard-deviation formula gives
`2 × √0.02 × 1.65 ≠ 0.33`; so `valueAtRisk` is not the sample-based value. -/
theorem C9_counterexample :
    RiskM.valueAtRisk RiskM.examplePositions9 = 33/100 ∧
    RiskM.valueAtRiskSampleSpec RiskM.examplePositions9 ≠ 33/100 := by
  have hnil : RiskM.examplePositions9 ≠ ([] : List RiskM.Position) := by
    simp [RiskM.examplePositions9]
  have hvar : RiskM.returnsVariance RiskM.examplePositions9 = 1/100 := by
    norm_num [RiskM.returnsVariance, RiskM.unrealizedReturns, RiskM.listMean,
      RiskM.examplePositions9]
  have hsvar : RiskM.sampleVariance RiskM.examplePositions9 = 1/50 := by
    norm_num [RiskM.sampleVariance, RiskM.unrealizedReturns, RiskM.listMean,
      RiskM.examplePositions9]
  have hcast1 : ((RiskM.returnsVariance RiskM.examplePositions9 : ℚ) : ℝ) = 1/100 := by
    rw [hvar]; norm_num
  have hcast2 : ((RiskM.sampleVariance RiskM.examplePositions9 : ℚ) : ℝ) = 1/50 := by
    rw [hsvar]; norm_num
  have hsq1 : Real.sqrt ((1:ℝ)/100) = 1/10 := by
    rw [show (1:ℝ)/100 = (1/10)^2 by norm_num, Real.sqrt_sq (by norm_num)]
  have hexp : (RiskM.totalExposure RiskM.examplePositions9 : ℚ) = 2 := by
    norm_num [RiskM.totalExposure, RiskM.examplePositions9]
  constructor
  · rw [RiskM.valueAtRisk, RiskM.estimateStdDev, if_neg hnil, hcast1, hsq1, hexp]
    norm_num
  · rw [RiskM.valueAtRiskSampleSpec, RiskM.estimateStdDevSampleSpec, if_neg hnil,
      hcast2, hexp]
    have hpos : (0:ℝ) < Real.sqrt (1/50) := Real.sqrt_pos.mpr (by norm_num)
    rw [if_neg hpos.ne']
    intro heq
    have hs : Real.sqrt ((1:ℝ)/50) = 1/10 := by
      push_cast at heq
      nlinarith [hpos]
    have := Real.sq_sqrt (show (0:ℝ) ≤ 1/50 by norm_num)
    rw [hs] at this
    norm_num at this

/-- C9 (amended): `calculateMetrics` returns
`valueAtRisk = totalExposure × stdDev × 1.65` where `stdDev` is the
*population* standard deviation of the per-position unrealized returns
`(currentPrice − entryPrice)/entryPrice`, defaulting to 0.1 when the position
list is empty or the variance is degenerate (zero). -/
theorem C9_valueAtRisk_population (positions : List RiskM.Position) :
    (positions = [] →
      RiskM.valueAtRisk positions =
        (RiskM.totalExposure positions : ℝ) * (1/10) * (165/100)) ∧
    (positions ≠ [] → RiskM.returnsVariance positions = 0 →
      RiskM.valueAtRisk positions =
        (RiskM.totalExposure positions : ℝ) * (1/10) * (165/100)) ∧
    (positions ≠ [] → RiskM.returnsVariance positions ≠ 0 →
      RiskM.valueAtRisk positions =
        (RiskM.totalExposure positions : ℝ) *
          Real.sqrt (RiskM.returnsVariance positions) * (165/100)) := by
  refine ⟨?_, ?_, ?_⟩
  · intro hnil
    rw [RiskM.valueAtRisk, RiskM.estimateStdDev, if_pos hnil]
  · intro hnil hdeg
    rw [RiskM.valueAtRisk, RiskM.estimateStdDev, if_neg hnil, if_pos]
    rw [hdeg]
    norm_num
  · intro hnil hdeg
    rw [RiskM.valueAtRisk, RiskM.estimateStdDev, if_neg hnil, if_neg]
    intro hzero
    have hle : ((RiskM.returnsVariance positions : ℚ) : ℝ) ≤ 0 :=
      Real.sqrt_eq_zero'.mp hzero
    have hge : (0:ℝ) ≤ ((RiskM.returnsVariance positions : ℚ) : ℝ) := by
      exact_mod_cast RiskM.returnsVariance_nonneg positions
    exact hdeg (by exact_mod_cast le_antisymm hle hge)

/-- Witness for C9's amended theorem at the two concrete positions with
population variance 1/100. -/
theorem C9_witness : RiskM.valueAtRisk RiskM.examplePositions9 = 33/100 := by
  have h := (C9_valueAtRisk_population RiskM.examplePositions9).2.2
    (by simp [RiskM.examplePositions9])
    (by norm_num [RiskM.returnsVariance, RiskM.unrealizedReturns, RiskM.listMean,
      RiskM.examplePositions9])
  rw [h]
  have hvar : RiskM.returnsVariance RiskM.examplePositions9 = 1/100 := by
    norm_num [RiskM.returnsVariance, RiskM.unrealizedReturns, RiskM.listMean,
      RiskM.examplePositions9]
  rw [hvar, show ((RiskM.totalExposure RiskM.examplePositions9 : ℚ) : ℝ) = 2 by
    norm_num [RiskM.totalExposure, RiskM.examplePositions9]]
  rw [show (((1:ℚ)/100 : ℚ) : ℝ) = (1/10)^2 by norm_num,
    Real.sqrt_sq (by norm_num)]
  norm_num

/-- A JavaScript number restricted to the values arising in the spike
detector: a finite rational, one of the two infinities (from dividing a
nonzero number by zero), or NaN (from `0/0`). -/
inductive JsNum where
  | fin : ℚ → JsNum
  | posInf
  | negInf
  | nan
deriving Repr, DecidableEq

namespace JsNum

/-- JavaScript division of two finite numbers: `x/0` is `±Infinity` for
nonzero `x` and `NaN` for `x = 0`. -/
def divQ (a b : ℚ) : JsNum :=
  if b = 0 then
    if 0 < a then posInf else if a < 0 then negInf else nan
  else fin (a / b)

/-- JavaScript `Math.abs`. -/
def abs : JsNum → JsNum
  | fin a => fin |a|
  | posInf => posInf
  | negInf => posInf
  | nan => nan

/-- JavaScript `x < q` for a finite right operand: false on NaN. -/
def ltQ : JsNum → ℚ → Bool
  | fin a, q => decide (a < q)
  | posInf, _ => false
  | negInf, _ => true
  | nan, _ => false

/-- JavaScript `x > q` for a finite right operand: false on NaN. -/
def gtQ : JsNum → ℚ → Bool
  | fin a, q => decide (q < a)
  | posInf, _ => true
  | negInf, _ => false
  | nan, _ => false

/-- JavaScript division by a finite number (`Infinity/0 = Infinity`). -/
def divByQ : JsNum → ℚ → JsNum
  | fin a, q => divQ a q
  | posInf, q => if q < 0 then negInf else posInf
  | negInf, q => if q < 0 then posInf else negInf
  | nan, _ => nan

/-- JavaScript `Math.min(x, q)` with finite `q`: NaN absorbs. -/
def minQ : JsNum → ℚ → JsNum
  | fin a, q => fin (min a q)
  | posInf, q => fin q
  | negInf, _ => negInf
  | nan, _ => nan

end JsNum

namespace Spike

/-- A recorded price observation (shared/schema `PricePoint`). -/
structure PricePoint where
  marketId : String
  price : ℚ
  timestamp : ℕ
  volume : Option ℚ
deriving Repr, DecidableEq

/-- The spike-detector settings read by `detectSpike`. -/
structure SpikeSettings where
  spikeThreshold : ℚ
  cooldownMs : ℕ
deriving Repr, DecidableEq

/-- Direction of a detected spike. -/
inductive Direction where
  | up
  | down
deriving Repr, DecidableEq

/-- Suggested action attached to a spike event. -/
inductive SuggestedAction where
  | buy_yes
  | buy_no
  | wait
deriving Repr, DecidableEq

/-- A detected spike (shared/schema `SpikeEvent`; the string `id` and the
`marketQuestion` filled in later by `analyzeMarkets` are omitted).  The two
fields computed by a division with a possibly-zero divisor have type
`JsNum`. -/
structure SpikeEvent where
  marketId : String
  priceChange : ℚ
  priceChangePercent : JsNum
  direction : Direction
  previousPrice : ℚ
  currentPrice : ℚ
  volume : ℚ
  detectedAt : ℕ
  confidence : JsNum
  suggestedAction : SuggestedAction
deriving Repr, DecidableEq

/-- Mutable state of the `SpikeDetector` class (spike-detector.ts lines 3-8).
The two maps are modelled as total functions with the source's read defaults
(`|| []`, `|| 0`). -/
structure DetectorState where
  defaultWindowSize : ℕ
  priceHistory : String → List PricePoint
  cooldowns : String → ℕ
  detectedSpikes : List SpikeEvent

/-- A fresh `SpikeDetector` with the given window size (default 30). -/
def initialState (w : ℕ) : DetectorState :=
  { defaultWindowSize := w, priceHistory := fun _ => [], cooldowns := fun _ => 0,
    detectedSpikes := [] }

/-- Embedding of `SpikeDetector.recordPrice` (lines 10-24); `now` stands for
`Date.now()`. -/
def recordPrice (s : DetectorState) (marketId : String) (price : ℚ)
    (volume : Option ℚ) (now : ℕ) : DetectorState :=
  let history := s.priceHistory marketId ++
    [{ marketId := marketId, price := price, timestamp := now, volume := volume }]
  let history := if s.defaultWindowSize < history.length then history.tail else history
  { s with priceHistory := fun m => if m = marketId then history else s.priceHistory m }

/-- Embedding of `SpikeDetector.detectSpike` (lines 26-81); `now` stands for
`Date.now()`.  Returns the optional spike together with the updated state. -/
def detectSpike (s : DetectorState) (marketId : String) (settings : SpikeSettings)
    (now : ℕ) : Option SpikeEvent × DetectorState :=
  let history := s.priceHistory marketId
  if history.length < 3 then (none, s)
  else
    let cooldownEnd := s.cooldowns marketId
    if now < cooldownEnd then (none, s)
    else
      let currentPrice := ((history.getLast?).map PricePoint.price).getD 0
      let recentPrices := history.drop (history.length - min 5 history.length)
      let avgRecentPrice :=
        ((recentPrices.dropLast.map PricePoint.price).sum) /
          ((recentPrices.length - 1 : ℕ) : ℚ)
      let priceChange := currentPrice - avgRecentPrice
      let priceChangePercent := (JsNum.divQ priceChange avgRecentPrice).abs
      if priceChangePercent.ltQ settings.spikeThreshold then (none, s)
      else
        let direction := if 0 < priceChange then Direction.up else Direction.down
        let confidence :=
          (priceChangePercent.divByQ (settings.spikeThreshold * 2)).minQ 1
        let suggestedAction :=
          if direction = Direction.up ∧ confidence.gtQ (6/10) then
            SuggestedAction.buy_no
          else if direction = Direction.down ∧ confidence.gtQ (6/10) then
            SuggestedAction.buy_yes
          else SuggestedAction.wait
        let spike : SpikeEvent :=
          { marketId := marketId, priceChange := priceChange,
            priceChangePercent := priceChangePercent, direction := direction,
            previousPrice := avgRecentPrice, currentPrice := currentPrice,
            volume := (((history.getLast?).bind PricePoint.volume).getD 0),
            detectedAt := now, confidence := confidence,
            suggestedAction := suggestedAction }
        let spikes := s.detectedSpikes ++ [spike]
        let spikes := if 100 < spikes.length then spikes.tail else spikes
        (some spike,
          { s with detectedSpikes := spikes,
                   cooldowns := fun m =>
                     if m = marketId then now + settings.cooldownMs
                     else s.cooldowns m })

/-- The public operations that mutate spike-detector state. -/
inductive SpikeOp where
  | record (marketId : String) (price : ℚ) (volume : Option ℚ) (t : ℕ)
  | detect (marketId : String) (settings : SpikeSettings) (t : ℕ)
deriving Repr, DecidableEq

/-- Apply one operation to the detector state. -/
def stepOp (s : DetectorState) : SpikeOp → DetectorState
  | SpikeOp.record m p v t => recordPrice s m p v t
  | SpikeOp.detect m st t => (detectSpike s m st t).2

end Spike

namespace Spike

/-- One `recordPrice` step on a single market's history: append, then drop
the oldest point when the window is exceeded. -/
def stepHist (w : ℕ) (h : List PricePoint) (x : PricePoint) : List PricePoint :=
  let h2 := h ++ [x]
  if w < h2.length then h2.tail else h2

/-- The price points an operation sequence records for a given market, in
call order. -/
def recordsFor (m : String) : List SpikeOp → List PricePoint
  | [] => []
  | SpikeOp.record m2 p v t :: rest =>
      if m2 = m then
        { marketId := m2, price := p, timestamp := t, volume := v } :: recordsFor m rest
      else recordsFor m rest
  | SpikeOp.detect _ _ _ :: rest => recordsFor m rest

/-- `detectSpike` never changes the price history or the window size. -/
theorem detectSpike_preserves_history (s : DetectorState) (m : String)
    (st : SpikeSettings) (t : ℕ) :
    ((detectSpike s m st t).2).priceHistory = s.priceHistory ∧
    ((detectSpike s m st t).2).defaultWindowSize = s.defaultWindowSize := by
  simp only [detectSpike]
  split
  · exact ⟨rfl, rfl⟩
  · split
    · exact ⟨rfl, rfl⟩
    · split
      · exact ⟨rfl, rfl⟩
      · exact ⟨rfl, rfl⟩

/-- `stepOp` never changes the window size. -/
theorem stepOp_windowSize (s : DetectorState) (op : SpikeOp) :
    (stepOp s op).defaultWindowSize = s.defaultWindowSize := by
  cases op with
  | record m p v t => rfl
  | detect m st t => exact (detectSpike_preserves_history s m st t).2

/-- Folding an operation sequence acts on each market's history as the fold
of `stepHist` over the points recorded for that market. -/
theorem foldl_priceHistory (ops : List SpikeOp) :
    ∀ (s : DetectorState) (m : String),
    ((ops.foldl stepOp s).priceHistory m) =
      (recordsFor m ops).foldl (stepHist s.defaultWindowSize) (s.priceHistory m) := by
  induction ops with
  | nil => intro s m; rfl
  | cons op rest ih =>
    intro s m
    cases op with
    | record m2 p v t =>
      rw [List.foldl_cons]
      rw [ih (stepOp s (SpikeOp.record m2 p v t)) m]
      have hw : (stepOp s (SpikeOp.record m2 p v t)).defaultWindowSize =
          s.defaultWindowSize := stepOp_windowSize s _
      rw [hw]
      by_cases h : m2 = m
      · subst h
        have hstep : (stepOp s (SpikeOp.record m2 p v t)).priceHistory m2 =
            stepHist s.defaultWindowSize (s.priceHistory m2)
              { marketId := m2, price := p, timestamp := t, volume := v } := by
          simp only [stepOp, recordPrice, stepHist]
          simp
        rw [hstep]
        simp [recordsFor]
      · have hmm : ¬ m = m2 := fun hh => h hh.symm
        have hstep : (stepOp s (SpikeOp.record m2 p v t)).priceHistory m =
            s.priceHistory m := by
          simp [stepOp, recordPrice, hmm]
        rw [hstep]
        simp [recordsFor, h]
    | detect m2 st t =>
      rw [List.foldl_cons]
      rw [ih (stepOp s (SpikeOp.detect m2 st t)) m]
      have hp := detectSpike_preserves_history s m2 st t
      simp only [stepOp]
      rw [hp.1, hp.2]
      rfl

/-- One `stepHist` step preserves the "history = most recent `w` points"
invariant. -/
theorem stepHist_drop (w : ℕ) (xs : List PricePoint) (x : PricePoint) :
    stepHist w (xs.drop (xs.length - w)) x =
      (xs ++ [x]).drop ((xs ++ [x]).length - w) := by
  by_cases hlt : xs.length < w
  · have h0 : xs.length - w = 0 := Nat.sub_eq_zero_of_le (le_of_lt hlt)
    have h1 : (xs ++ [x]).length - w = 0 := by
      simp only [List.length_append, List.length_singleton]
      exact Nat.sub_eq_zero_of_le hlt
    rw [h0, h1, List.drop_zero, List.drop_zero, stepHist]
    have : ¬ w < (xs ++ [x]).length := by
      simp only [List.length_append, List.length_singleton]
      omega
    simp only [this, if_false]
  · push_neg at hlt
    have hdlen : (xs.drop (xs.length - w)).length = w := by
      rw [List.length_drop]
      omega
    rw [stepHist]
    have hcond : w < ((xs.drop (xs.length - w)) ++ [x]).length := by
      simp only [List.length_append, List.length_singleton, hdlen]
      omega
    simp only [hcond, if_true]
    rcases Nat.eq_zero_or_pos w with hw0 | hwpos
    · subst hw0
      have hnil : xs.drop (xs.length - 0) = [] := by
        simp [List.drop_length]
      rw [hnil]
      simp [List.drop_eq_nil_of_le]
    · have hne : xs.drop (xs.length - w) ≠ [] := by
        intro hc
        have := congrArg List.length hc
        rw [hdlen] at this
        simp at this
        omega
      rw [List.tail_append_of_ne_nil hne, List.tail_drop]
      have hle : (xs ++ [x]).length - w ≤ xs.length := by
        simp only [List.length_append, List.length_singleton]
        omega
      rw [List.drop_append_of_le_length hle]
      have : (xs ++ [x]).length - w = xs.length - w + 1 := by
        simp only [List.length_append, List.length_singleton]
        omega
      rw [this]

/-- Folding `stepHist` from the most-recent-`w` suffix of `xs` over `pts`
yields the most-recent-`w` suffix of `xs ++ pts`. -/
theorem foldl_stepHist_drop (w : ℕ) (pts : List PricePoint) :
    ∀ xs : List PricePoint,
    pts.foldl (stepHist w) (xs.drop (xs.length - w)) =
      (xs ++ pts).drop ((xs ++ pts).length - w) := by
  induction pts with
  | nil => intro xs; simp
  | cons p rest ih =>
    intro xs
    rw [List.foldl_cons, stepHist_drop w xs p, ih (xs ++ [p])]
    simp

end Spike

/-- C7: for every market and operation sequence over a fresh detector with
window size `w`, the retained history is exactly the suffix of the recorded
points: it equals the `w` most recent points in append order once more than
`w` points were recorded (the oldest evicted first), its length is
`min N w`, and no prefix of the sequence ever leaves it longer than `w`. -/
theorem C7_priceHistory_fifo (w : ℕ) (ops : List Spike.SpikeOp) (m : String) :
    ((ops.foldl Spike.stepOp (Spike.initialState w)).priceHistory m) =
      (Spike.recordsFor m ops).drop ((Spike.recordsFor m ops).length - w) ∧
    ((ops.foldl Spike.stepOp (Spike.initialState w)).priceHistory m).length =
      min (Spike.recordsFor m ops).length w ∧
    (w < (Spike.recordsFor m ops).length →
      ((ops.foldl Spike.stepOp (Spike.initialState w)).priceHistory m).length = w) ∧
    (∀ n : ℕ,
      (((ops.take n).foldl Spike.stepOp (Spike.initialState w)).priceHistory m).length
        ≤ w) := by
  have key : ∀ ops2 : List Spike.SpikeOp,
      ((ops2.foldl Spike.stepOp (Spike.initialState w)).priceHistory m) =
        (Spike.recordsFor m ops2).drop ((Spike.recordsFor m ops2).length - w) := by
    intro ops2
    rw [Spike.foldl_priceHistory ops2 (Spike.initialState w) m]
    have h := Spike.foldl_stepHist_drop w (Spike.recordsFor m ops2) []
    simpa [Spike.initialState] using h
  refine ⟨key ops, ?_, ?_, ?_⟩
  · rw [key ops, List.length_drop]
    omega
  · intro h
    rw [key ops, List.length_drop]
    omega
  · intro n
    rw [key (ops.take n), List.length_drop]
    omega

/-- Witness for C7: three prices recorded into a window of size two retain
exactly the two most recent points, in order. -/
theorem C7_witness :
    (([Spike.SpikeOp.record "m" 1 none 0, Spike.SpikeOp.record "m" 2 none 1,
       Spike.SpikeOp.record "m" 3 none 2].foldl Spike.stepOp
       (Spike.initialState 2)).priceHistory "m") =
      [{ marketId := "m", price := 2, timestamp := 1, volume := none },
       { marketId := "m", price := 3, timestamp := 2, volume := none }] ∧
    (([Spike.SpikeOp.record "m" 1 none 0, Spike.SpikeOp.record "m" 2 none 1,
       Spike.SpikeOp.record "m" 3 none 2].foldl Spike.stepOp
       (Spike.initialState 2)).priceHistory "m").length = 2 := by
  have h := C7_priceHistory_fifo 2
    [Spike.SpikeOp.record "m" 1 none 0, Spike.SpikeOp.record "m" 2 none 1,
     Spike.SpikeOp.record "m" 3 none 2] "m"
  refine ⟨?_, h.2.2.1 (by simp [Spike.recordsFor])⟩
  rw [h.1]
  simp [Spike.recordsFor]

namespace Spike

/-- A successful detection sets the market's cooldown end to
`now + settings.cooldownMs`. -/
theorem detectSpike_fire_cooldown (s : DetectorState) (m : String)
    (st : SpikeSettings) (t : ℕ) (e : SpikeEvent)
    (h : (detectSpike s m st t).1 = some e) :
    ((detectSpike s m st t).2).cooldowns m = t + st.cooldownMs := by
  revert h
  simp only [detectSpike]
  split
  · intro h; exact absurd h (by simp)
  · split
    · intro h; exact absurd h (by simp)
    · split
      · intro h; exact absurd h (by simp)
      · intro _
        simp

/-- No single operation ever lowers a market's cooldown end: `recordPrice`
does not touch it, and a successful detection can only happen at a time at or
past the current end, replacing it with a later one. -/
theorem stepOp_cooldown_mono (s : DetectorState) (op : SpikeOp) (m : String) :
    s.cooldowns m ≤ (stepOp s op).cooldowns m := by
  cases op with
  | record m2 p v t => exact le_refl _
  | detect m2 st t =>
    simp only [stepOp, detectSpike]
    split
    · exact le_refl _
    · split
      · exact le_refl _
      · rename_i hcool
        split
        · exact le_refl _
        · push_neg at hcool
          by_cases hm : m = m2
          · subst hm
            simp only [if_pos rfl]
            simp
            omega
          · simp only [if_neg hm]
            exact le_refl _

/-- Folding any operation sequence never lowers a market's cooldown end. -/
theorem foldl_cooldown_mono (ops : List SpikeOp) :
    ∀ (s : DetectorState) (m : String),
    s.cooldowns m ≤ (ops.foldl stepOp s).cooldowns m := by
  induction ops with
  | nil => intro s m; exact le_refl _
  | cons op rest ih =>
    intro s m
    exact le_trans (stepOp_cooldown_mono s op m) (ih (stepOp s op) m)

/-- A detection attempt strictly before the market's cooldown end returns
none. -/
theorem detectSpike_none_of_cooldown (s : DetectorState) (m : String)
    (st : SpikeSettings) (t : ℕ) (h : t < s.cooldowns m) :
    (detectSpike s m st t).1 = none := by
  simp only [detectSpike]
  split
  · rfl
  · rfl

end Spike

/-- C6: if `detectSpike` fires for a market at time `t1`, then after any
further operation sequence every `detectSpike` call for that market at a
time `t2 < t1 + cooldownMs` returns none — the detection set the cooldown
end to `t1 + cooldownMs` and no operation can lower it, so with
monotonically advancing time the same market can never fire twice inside
its cooldown window. -/
theorem C6_cooldown_suppression (s : Spike.DetectorState) (m : String)
    (st st2 : Spike.SpikeSettings) (t1 t2 : ℕ) (e : Spike.SpikeEvent)
    (hfire : (Spike.detectSpike s m st t1).1 = some e)
    (ops : List Spike.SpikeOp)
    (ht : t2 < t1 + st.cooldownMs) :
    (Spike.detectSpike (ops.foldl Spike.stepOp (Spike.detectSpike s m st t1).2)
      m st2 t2).1 = none := by
  have h1 : ((Spike.detectSpike s m st t1).2).cooldowns m = t1 + st.cooldownMs :=
    Spike.detectSpike_fire_cooldown s m st t1 e hfire
  have h2 := Spike.foldl_cooldown_mono ops (Spike.detectSpike s m st t1).2 m
  rw [h1] at h2
  exact Spike.detectSpike_none_of_cooldown _ m st2 t2 (lt_of_lt_of_le ht h2)

namespace Spike

/-- A detector holding three recorded prices 0.1, 0.1, 0.5 for market "m". -/
def witnessState : DetectorState :=
  { defaultWindowSize := 30,
    priceHistory := fun m => if m = "m" then
      [{ marketId := "m", price := 1/10, timestamp := 0, volume := none },
       { marketId := "m", price := 1/10, timestamp := 1, volume := none },
       { marketId := "m", price := 1/2, timestamp := 2, volume := none }] else [],
    cooldowns := fun _ => 0,
    detectedSpikes := [] }

/-- Settings: 10% spike threshold, 100 ms cooldown. -/
def witnessSettings : SpikeSettings := { spikeThreshold := 1/10, cooldownMs := 100 }

end Spike

/-- Witness for C6: a spike fires for market "m" at time 5 (reference 0.1,
current 0.5), and a second detection attempt at time 50 — inside the 100 ms
cooldown, after a further recorded price — returns none. -/
theorem C6_witness :
    (Spike.detectSpike
      ([Spike.SpikeOp.record "m" (9/10) none 10].foldl Spike.stepOp
        (Spike.detectSpike Spike.witnessState "m" Spike.witnessSettings 5).2)
      "m" Spike.witnessSettings 50).1 = none := by
  have hfire : (Spike.detectSpike Spike.witnessState "m" Spike.witnessSettings 5).1 =
      some { marketId := "m", priceChange := 2/5,
             priceChangePercent := JsNum.fin 4, direction := Spike.Direction.up,
             previousPrice := 1/10, currentPrice := 1/2, volume := 0,
             detectedAt := 5, confidence := JsNum.fin 1,
             suggestedAction := Spike.SuggestedAction.buy_no } := by
    norm_num [Spike.detectSpike, Spike.witnessState, Spike.witnessSettings,
      JsNum.divQ, JsNum.abs, JsNum.ltQ, JsNum.gtQ, JsNum.divByQ, JsNum.minQ,
      List.getLast?]
  exact C6_cooldown_suppression Spike.witnessState "m" Spike.witnessSettings
    Spike.witnessSettings 5 50 _ hfire [Spike.SpikeOp.record "m" (9/10) none 10]
    (by norm_num [Spike.witnessSettings])

namespace Spike

/-- History 0, 0, 1 for market "z": the reference price (average of the
points preceding the newest) is zero. -/
def zeroRefState : DetectorState :=
  { defaultWindowSize := 30,
    priceHistory := fun m => if m = "z" then
      [{ marketId := "z", price := 0, timestamp := 0, volume := none },
       { marketId := "z", price := 0, timestamp := 1, volume := none },
       { marketId := "z", price := 1, timestamp := 2, volume := none }] else [],
    cooldowns := fun _ => 0,
    detectedSpikes := [] }

/-- History 0.4, 0.4, 0 for market "c": the current price is zero. -/
def zeroCurState : DetectorState :=
  { defaultWindowSize := 30,
    priceHistory := fun m => if m = "c" then
      [{ marketId := "c", price := 2/5, timestamp := 0, volume := none },
       { marketId := "c", price := 2/5, timestamp := 1, volume := none },
       { marketId := "c", price := 0, timestamp := 2, volume := none }] else [],
    cooldowns := fun _ => 0,
    detectedSpikes := [] }

/-- History 0, 0, 0 for market "n": both the current and the reference price
are zero. -/
def nanState : DetectorState :=
  { defaultWindowSize := 30,
    priceHistory := fun m => if m = "n" then
      [{ marketId := "n", price := 0, timestamp := 0, volume := none },
       { marketId := "n", price := 0, timestamp := 1, volume := none },
       { marketId := "n", price := 0, timestamp := 2, volume := none }] else [],
    cooldowns := fun _ => 0,
    detectedSpikes := [] }

end Spike

/-- C3 fails on the code: `detectSpike` performs no clamping and no
zero-divisor guard.  With a zero reference price it returns a spike whose
`priceChangePercent` is `Infinity`; with a zero current price (positive
reference) it returns a finite spike instead of none; with both zero it
returns a spike carrying `NaN` in `priceChangePercent` and `confidence`
(`NaN < threshold` is false in JavaScript, so the threshold check does not
stop it).  The spec requires all three cases to be treated as "no spike". -/
theorem C3_detectSpike_nonfinite :
    ((Spike.detectSpike Spike.zeroRefState "z" Spike.witnessSettings 3).1.map
      Spike.SpikeEvent.priceChangePercent) = some JsNum.posInf ∧
    ((Spike.detectSpike Spike.zeroCurState "c" Spike.witnessSettings 3).1.map
      Spike.SpikeEvent.priceChangePercent) = some (JsNum.fin 1) ∧
    ((Spike.detectSpike Spike.nanState "n" Spike.witnessSettings 3).1.map
      Spike.SpikeEvent.priceChangePercent) = some JsNum.nan ∧
    ((Spike.detectSpike Spike.nanState "n" Spike.witnessSettings 3).1.map
      Spike.SpikeEvent.confidence) = some JsNum.nan := by
  refine ⟨?_, ?_, ?_, ?_⟩ <;>
    norm_num [Spike.detectSpike, Spike.zeroRefState, Spike.zeroCurState,
      Spike.nanState, Spike.witnessSettings, JsNum.divQ, JsNum.abs, JsNum.ltQ,
      JsNum.gtQ, JsNum.divByQ, JsNum.minQ, List.getLast?]

namespace Arb

/-- A market snapshot as read by the arbitrage scanner (shared/schema
`Market`; fields not read by `scanBinaryArbitrage` are omitted). -/
structure Market where
  id : String
  question : String
  outcomes : List String
  outcomePrices : List ℚ
deriving Repr, DecidableEq

/-- Status of an arbitrage opportunity. -/
inductive OppStatus where
  | active
  | expired
  | executed
deriving Repr, DecidableEq

/-- A binary arbitrage opportunity (shared/schema `ArbitrageOpportunity`;
the interpolated string id and the per-leg records are flattened to the
fields the claims read, `detectedAt` is a numeric timestamp). -/
structure Opportunity where
  marketId : String
  question : String
  yesPrice : ℚ
  noPrice : ℚ
  totalCost : ℚ
  guaranteedPayout : ℚ
  profit : ℚ
  profitPercent : ℚ
  detectedAt : ℕ
  status : OppStatus
deriving Repr, DecidableEq

/-- `ArbitrageScanner.TRANSACTION_FEE` (arbitrage-scanner.ts line 5). -/
def TRANSACTION_FEE : ℚ := 1/50

/-- The body of the `scanBinaryArbitrage` loop for one market
(lines 10-47): skip markets without exactly two outcomes, flag when
`yes + no + fee < 1`. -/
def opportunityFor (now : ℕ) (m : Market) : Option Opportunity :=
  if m.outcomes.length ≠ 2 then none
  else
    let yesPrice := m.outcomePrices.getD 0 0
    let noPrice := m.outcomePrices.getD 1 0
    let netCost := yesPrice + noPrice + TRANSACTION_FEE
    if netCost < 1 then
      some { marketId := m.id, question := m.question, yesPrice := yesPrice,
             noPrice := noPrice, totalCost := netCost, guaranteedPayout := 1,
             profit := 1 - netCost,
             profitPercent := (1 - netCost) / netCost * 100,
             detectedAt := now, status := OppStatus.active }
    else none

/-- Embedding of `ArbitrageScanner.scanBinaryArbitrage` (lines 7-57):
returns the newly detected opportunities together with the updated registry
(`this.opportunities`) — the new ones followed by the previously stored ones
younger than five minutes, truncated to 50 entries. -/
def scanBinaryArbitrage (now : ℕ) (markets : List Market)
    (stored : List Opportunity) : List Opportunity × List Opportunity :=
  let newOpportunities := markets.filterMap (opportunityFor now)
  (newOpportunities,
    (newOpportunities ++
      stored.filter (fun o => now - o.detectedAt < 300000)).take 50)

/-- Every newly created opportunity carries the scan timestamp. -/
theorem opportunityFor_detectedAt (now : ℕ) (m : Market) (o : Opportunity)
    (h : opportunityFor now m = some o) : o.detectedAt = now := by
  revert h
  simp only [opportunityFor]
  split
  · intro h; exact absurd h (by simp)
  · split
    · intro h
      simp only [Option.some.injEq] at h
      rw [← h]
    · intro h; exact absurd h (by simp)

end Arb

/-- C8: `scanBinaryArbitrage` flags exactly the two-outcome markets with
`netCost = yes + no + 0.02 < 1`, with `profit = 1 − netCost` and
`profitPercent = profit/netCost × 100`; the updated registry is the new
opportunities followed by the stored ones younger than five minutes, capped
at 50, every registry entry is either fresh (detected now) or a young stored
one, and the registry stays ordered newest-first, so the cap keeps the 50
most recent; prices [0.45, 0.50] are flagged (netCost 0.97, profit 0.03)
while [0.50, 0.52] are not. -/
theorem C8_scanBinaryArbitrage_spec (now : ℕ) (markets : List Arb.Market)
    (stored : List Arb.Opportunity) :
    (∀ m : Arb.Market, m.outcomes.length = 2 →
      m.outcomePrices.getD 0 0 + m.outcomePrices.getD 1 0 + 1/50 < 1 →
      Arb.opportunityFor now m = some
        { marketId := m.id, question := m.question,
          yesPrice := m.outcomePrices.getD 0 0,
          noPrice := m.outcomePrices.getD 1 0,
          totalCost := m.outcomePrices.getD 0 0 + m.outcomePrices.getD 1 0 + 1/50,
          guaranteedPayout := 1,
          profit := 1 - (m.outcomePrices.getD 0 0 + m.outcomePrices.getD 1 0 + 1/50),
          profitPercent :=
            (1 - (m.outcomePrices.getD 0 0 + m.outcomePrices.getD 1 0 + 1/50)) /
              (m.outcomePrices.getD 0 0 + m.outcomePrices.getD 1 0 + 1/50) * 100,
          detectedAt := now, status := Arb.OppStatus.active }) ∧
    (∀ m : Arb.Market, m.outcomes.length = 2 →
      ¬ m.outcomePrices.getD 0 0 + m.outcomePrices.getD 1 0 + 1/50 < 1 →
      Arb.opportunityFor now m = none) ∧
    (∀ m : Arb.Market, m.outcomes.length ≠ 2 → Arb.opportunityFor now m = none) ∧
    ((Arb.scanBinaryArbitrage now markets stored).2 =
      ((Arb.scanBinaryArbitrage now markets stored).1 ++
        stored.filter (fun o => now - o.detectedAt < 300000)).take 50) ∧
    ((Arb.scanBinaryArbitrage now markets stored).2.length ≤ 50) ∧
    (∀ o ∈ (Arb.scanBinaryArbitrage now markets stored).2,
      o.detectedAt = now ∨ (o ∈ stored ∧ now - o.detectedAt < 300000)) ∧
    ((stored.Pairwise fun a b => b.detectedAt ≤ a.detectedAt) →
     (∀ o ∈ stored, o.detectedAt ≤ now) →
      (Arb.scanBinaryArbitrage now markets stored).2.Pairwise
        fun a b => b.detectedAt ≤ a.detectedAt) := by
  refine ⟨?_, ?_, ?_, rfl, ?_, ?_, ?_⟩
  · intro m h2 hcost
    simp only [Arb.opportunityFor, Arb.TRANSACTION_FEE]
    rw [if_neg (by simp [h2]), if_pos hcost]
  · intro m h2 hcost
    simp only [Arb.opportunityFor, Arb.TRANSACTION_FEE]
    rw [if_neg (by simp [h2]), if_neg hcost]
  · intro m h2
    simp only [Arb.opportunityFor]
    rw [if_pos h2]
  · exact (List.length_take_le _ _)
  · intro o ho
    simp only [Arb.scanBinaryArbitrage] at ho
    have ho2 := List.mem_of_mem_take ho
    rcases List.mem_append.mp ho2 with hnew | hold
    · rcases List.mem_filterMap.mp hnew with ⟨m, _, hsome⟩
      exact Or.inl (Arb.opportunityFor_detectedAt now m o hsome)
    · rcases List.mem_filter.mp hold with ⟨hmem, hage⟩
      exact Or.inr ⟨hmem, by simpa using hage⟩
  · intro hsorted hpast
    simp only [Arb.scanBinaryArbitrage]
    refine List.Pairwise.take ?_
    refine List.pairwise_append.mpr ⟨?_, ?_, ?_⟩
    · have hall : ∀ o ∈ markets.filterMap (Arb.opportunityFor now),
          o.detectedAt = now := by
        intro o ho
        rcases List.mem_filterMap.mp ho with ⟨m, _, hsome⟩
        exact Arb.opportunityFor_detectedAt now m o hsome
      refine List.pairwise_of_forall_mem_list ?_
      intro a ha b hb
      rw [hall a ha, hall b hb]
    · exact hsorted.filter _
    · intro a ha b hb
      have hb2 := List.mem_of_mem_filter hb
      rcases List.mem_filterMap.mp ha with ⟨m, _, hsome⟩
      rw [Arb.opportunityFor_detectedAt now m a hsome]
      exact hpast b hb2

namespace Arb

/-- The spec example market with outcome prices [0.45, 0.50]. -/
def goodMarket : Market :=
  { id := "g", question := "q", outcomes := ["Yes", "No"],
    outcomePrices := [9/20, 1/2] }

/-- The spec example market with outcome prices [0.50, 0.52]. -/
def badMarket : Market :=
  { id := "b", question := "q", outcomes := ["Yes", "No"],
    outcomePrices := [1/2, 13/25] }

end Arb

/-- Witness for C8 at the spec's concrete examples: prices [0.45, 0.50] are
flagged with net cost 0.97 and profit 0.03, prices [0.50, 0.52] are not. -/
theorem C8_witness :
    ((Arb.opportunityFor 0 Arb.goodMarket).map Arb.Opportunity.totalCost) =
      some (97/100) ∧
    ((Arb.opportunityFor 0 Arb.goodMarket).map Arb.Opportunity.profit) =
      some (3/100) ∧
    Arb.opportunityFor 0 Arb.badMarket = none := by
  have h := C8_scanBinaryArbitrage_spec 0 [] []
  have hg := h.1 Arb.goodMarket (by simp [Arb.goodMarket])
    (by norm_num [Arb.goodMarket])
  have hb := h.2.1 Arb.badMarket (by simp [Arb.badMarket])
    (by norm_num [Arb.badMarket])
  rw [hg]
  refine ⟨?_, ?_, hb⟩ <;>
    norm_num [Arb.goodMarket]

namespace Backtest

/-- A simulated trade; the backtest loop reads only its `profitLoss`
(shared/schema `BacktestTrade`; entry/exit metadata omitted). -/
structure BacktestTrade where
  profitLoss : ℚ
deriving Repr, DecidableEq

/-- The running state of `BacktestingEngine.runBacktest`
(kelly-criterion.ts lines 340-344): equity, peak equity, tracked maximum
drawdown, and the equity curve (dates omitted — each entry is the equity
recorded for one day).  The result record reports `maxDrawdown × 100`. -/
structure BTState where
  equity : ℚ
  peakEquity : ℚ
  maxDrawdown : ℚ
  equityCurve : List ℚ
deriving Repr, DecidableEq

/-- One day of the `runBacktest` loop (lines 346-367): apply the day's
trades to equity, push an equity-curve point, raise the peak, and raise the
tracked maximum drawdown when the current drawdown exceeds it. -/
def dayStep (dayTrades : List BacktestTrade) (st : BTState) : BTState :=
  let equity := st.equity + (dayTrades.map BacktestTrade.profitLoss).sum
  let equityCurve := st.equityCurve ++ [equity]
  let peakEquity := if st.peakEquity < equity then equity else st.peakEquity
  let currentDrawdown := (peakEquity - equity) / peakEquity
  let maxDrawdown :=
    if st.maxDrawdown < currentDrawdown then currentDrawdown else st.maxDrawdown
  { equity := equity, peakEquity := peakEquity, maxDrawdown := maxDrawdown,
    equityCurve := equityCurve }

/-- The loop of `runBacktest` over consecutive day pairs.  `simulate` stands
for `this.simulateTrades` — it is a parameter because the kelly branch of the
source draws on `Math.random`, so the day's trades are an oracle of
(previous markets, current markets, current equity). -/
def runFrom {α : Type} (simulate : List α → List α → ℚ → List BacktestTrade)
    (steps : List (List α × List α)) (st : BTState) : BTState :=
  steps.foldl (fun s pair => dayStep (simulate pair.1 pair.2 s.equity) s) st

/-- The initial accumulator of `runBacktest`. -/
def initState (initialCapital : ℚ) : BTState :=
  { equity := initialCapital, peakEquity := initialCapital, maxDrawdown := 0,
    equityCurve := [] }

/-- Embedding of `BacktestingEngine.runBacktest` (lines 339-367): iterate
from day 1, pairing each day with the previous one (day 0 is reference
only). -/
def runBacktest {α : Type} (initialCapital : ℚ) (historicalData : List (List α))
    (simulate : List α → List α → ℚ → List BacktestTrade) : BTState :=
  runFrom simulate (historicalData.zip historicalData.tail)
    (initState initialCapital)

/-- The drawdown `(peak − equity)/peak` observed on one simulated day,
computed against the state at the start of the day. -/
def ddOf (dayTrades : List BacktestTrade) (st : BTState) : ℚ :=
  let equity := st.equity + (dayTrades.map BacktestTrade.profitLoss).sum
  let peakEquity := if st.peakEquity < equity then equity else st.peakEquity
  (peakEquity - equity) / peakEquity

/-- The drawdowns observed on each simulated day, in order. -/
def traceDD {α : Type} (simulate : List α → List α → ℚ → List BacktestTrade) :
    List (List α × List α) → BTState → List ℚ
  | [], _ => []
  | p :: rest, st =>
      ddOf (simulate p.1 p.2 st.equity) st ::
        traceDD simulate rest (dayStep (simulate p.1 p.2 st.equity) st)

/-- Each day appends exactly one equity-curve point. -/
theorem dayStep_curve (tr : List BacktestTrade) (st : BTState) :
    (dayStep tr st).equityCurve.length = st.equityCurve.length + 1 := by
  simp [dayStep]

/-- The loop appends one curve point per day pair. -/
theorem runFrom_curve {α : Type}
    (simulate : List α → List α → ℚ → List BacktestTrade)
    (steps : List (List α × List α)) :
    ∀ st : BTState,
    (runFrom simulate steps st).equityCurve.length =
      st.equityCurve.length + steps.length := by
  induction steps with
  | nil => intro st; simp [runFrom]
  | cons p rest ih =>
    intro st
    have h := ih (dayStep (simulate p.1 p.2 st.equity) st)
    simp only [runFrom, List.foldl_cons] at h ⊢
    rw [h, dayStep_curve, List.length_cons]
    omega

/-- The day update of the tracked maximum drawdown is exactly a max. -/
theorem dayStep_maxDD (tr : List BacktestTrade) (st : BTState) :
    (dayStep tr st).maxDrawdown = max st.maxDrawdown (ddOf tr st) := by
  simp only [dayStep, ddOf]
  by_cases h : st.maxDrawdown <
      ((if st.peakEquity < st.equity + (tr.map BacktestTrade.profitLoss).sum
        then st.equity + (tr.map BacktestTrade.profitLoss).sum else st.peakEquity) -
        (st.equity + (tr.map BacktestTrade.profitLoss).sum)) /
        (if st.peakEquity < st.equity + (tr.map BacktestTrade.profitLoss).sum
        then st.equity + (tr.map BacktestTrade.profitLoss).sum else st.peakEquity)
  · rw [if_pos h, max_eq_right h.le]
  · rw [if_neg h, max_eq_left (not_lt.mp h)]

/-- The tracked maximum drawdown after the loop is the running max (seeded
with the incoming value) of the day-by-day observed drawdowns. -/
theorem runFrom_maxDD {α : Type}
    (simulate : List α → List α → ℚ → List BacktestTrade)
    (steps : List (List α × List α)) :
    ∀ st : BTState,
    (runFrom simulate steps st).maxDrawdown =
      (traceDD simulate steps st).foldl max st.maxDrawdown := by
  induction steps with
  | nil => intro st; rfl
  | cons p rest ih =>
    intro st
    simp only [runFrom, List.foldl_cons, traceDD]
    have h := ih (dayStep (simulate p.1 p.2 st.equity) st)
    simp only [runFrom] at h
    rw [h, dayStep_maxDD]

/-- The loop concatenates: folding an appended step list folds the second
part from the result of the first. -/
theorem runFrom_append {α : Type}
    (simulate : List α → List α → ℚ → List BacktestTrade)
    (a b : List (List α × List α)) (st : BTState) :
    runFrom simulate (a ++ b) st = runFrom simulate b (runFrom simulate a st) := by
  simp [runFrom, List.foldl_append]

/-- The loop never lowers the tracked maximum drawdown. -/
theorem runFrom_maxDD_mono {α : Type}
    (simulate : List α → List α → ℚ → List BacktestTrade)
    (steps : List (List α × List α)) :
    ∀ st : BTState, st.maxDrawdown ≤ (runFrom simulate steps st).maxDrawdown := by
  induction steps with
  | nil => intro st; exact le_refl _
  | cons p rest ih =>
    intro st
    refine le_trans ?_ (ih (dayStep (simulate p.1 p.2 st.equity) st))
    rw [dayStep_maxDD]
    exact le_max_left _ _

end Backtest

/-- C5: over a historical sequence of `D ≥ 1` days, `runBacktest` produces an
equity curve of exactly `D − 1` points (day 0 is reference only), its tracked
maximum drawdown equals the running maximum (from 0) of the per-day drawdowns
`(peakEquity − equity)/peakEquity`, and that tracked maximum is non-decreasing
over the course of the simulation (longer prefixes never show a smaller
value); the result record reports this value scaled by 100. -/
theorem C5_runBacktest_spec {α : Type} (initialCapital : ℚ)
    (historicalData : List (List α))
    (simulate : List α → List α → ℚ → List Backtest.BacktestTrade)
    (hD : 1 ≤ historicalData.length) :
    (Backtest.runBacktest initialCapital historicalData simulate).equityCurve.length =
      historicalData.length - 1 ∧
    (Backtest.runBacktest initialCapital historicalData simulate).maxDrawdown =
      (Backtest.traceDD simulate (historicalData.zip historicalData.tail)
        (Backtest.initState initialCapital)).foldl max 0 ∧
    (∀ n m : ℕ, n ≤ m →
      (Backtest.runFrom simulate ((historicalData.zip historicalData.tail).take n)
        (Backtest.initState initialCapital)).maxDrawdown ≤
      (Backtest.runFrom simulate ((historicalData.zip historicalData.tail).take m)
        (Backtest.initState initialCapital)).maxDrawdown) := by
  refine ⟨?_, ?_, ?_⟩
  · rw [Backtest.runBacktest, Backtest.runFrom_curve]
    simp [Backtest.initState, List.length_zip]
  · rw [Backtest.runBacktest, Backtest.runFrom_maxDD]
    rfl
  · intro n m hnm
    have hsplit : (historicalData.zip historicalData.tail).take m =
        (historicalData.zip historicalData.tail).take n ++
          ((historicalData.zip historicalData.tail).take m).drop n := by
      have h := (List.take_append_drop n
        ((historicalData.zip historicalData.tail).take m)).symm
      rwa [List.take_take, Nat.min_eq_left hnm] at h
    rw [hsplit, Backtest.runFrom_append]
    exact Backtest.runFrom_maxDD_mono simulate _ _

/-- Witness for C5: three days of history with a fixed loss of 100 per day
from capital 1000 yield an equity curve of length 2 and a maximum drawdown of
20%. -/
theorem C5_witness :
    (Backtest.runBacktest 1000 ([[], [], []] : List (List Unit))
      (fun _ _ _ => [{ profitLoss := -100 }])).equityCurve.length = 2 ∧
    (Backtest.runBacktest 1000 ([[], [], []] : List (List Unit))
      (fun _ _ _ => [{ profitLoss := -100 }])).maxDrawdown = 1/5 := by
  have h := C5_runBacktest_spec 1000 ([[], [], []] : List (List Unit))
    (fun _ _ _ => [{ profitLoss := -100 }]) (by norm_num)
  refine ⟨by simpa using h.1, ?_⟩
  rw [h.2.1]
  norm_num [Backtest.traceDD, Backtest.ddOf, Backtest.dayStep, Backtest.initState]
